import Mathlib

/-!
# aesdsocket: a shallow embedding of `src/server/aesdsocket.c`

The server is a single-threaded C program built around blocking system calls.
The embedding keeps the C functions as Lean functions with the same names and
passes the state they touch explicitly:

* `Proc`    : the file-scope globals and the descriptors the process holds;
* `LogFile` : the file `/var/tmp/aesdsocketdata` seen through `output_fd`;
* `Conn`    : the accepted connection seen through `conn_fd`.

System calls are the boundary of the model.  What a call returns is decided by
a script (a list of answers, one per call, consumed in order).  An answer
`IoRes.err e` makes the call return `-1` with `errno = e`; an answer
`IoRes.ret n` makes it transfer at most `n` bytes (never more than the caller
asked for, never more than there is).  When a script is used up the call
transfers everything that was asked for.  `syslog` calls only produce
diagnostics and are left out.

Loops of the C code are recursive functions with a fuel argument; `none` means
that the fuel ran out before the loop ended.
-/

namespace Aesdsocket

/-! ## Constants -/

abbrev Byte := UInt8

/-- The value of `const size_t BUF_MAX_LEN = 1024 * 5`. -/
def BUF_MAX_LEN : Nat := 1024 * 5

/-- The value of `sizeof buf` inside `read_output`, where `buf` is a parameter of
type `char *`: the size of a pointer, 8 on the LP64 targets of the project. -/
def SIZEOF_BUF : Nat := 8

def EINTR : Nat := 4
def EAGAIN : Nat := 11
def EINVAL : Nat := 22
def ECONNABORTED : Nat := 103

def EXIT_SUCCESS : Int := 0
def EXIT_FAILURE : Int := 1

/-- The newline byte `'\n'`. -/
def NL : Byte := 10

/-! ## System-call answers and kernel-side state -/

/-- The answer of the environment to one system call. -/
inductive IoRes where
  | err (errno : Nat)
  | ret (n : Nat)
deriving DecidableEq, Repr

/-- The answer of the environment to one `recv` call on the connection. -/
inductive RecvEv where
  | err (errno : Nat)
  | data (chunk : List Byte)
deriving DecidableEq, Repr

/-- The log file behind `output_fd` (opened `O_RDWR | O_APPEND | O_CREAT`). -/
structure LogFile where
  /-- contents of the file -/
  log : List Byte
  /-- file offset of the descriptor -/
  pos : Nat
  /-- answers to the coming `write` calls -/
  writes : List IoRes
  /-- answers to the coming `lseek` calls -/
  lseeks : List IoRes
  /-- answers to the coming `read` calls -/
  reads : List IoRes
deriving DecidableEq, Repr

/-- The accepted connection behind `conn_fd`. -/
structure Conn where
  /-- answers to the coming `recv` calls; the end of the list is end-of-stream -/
  inbound : List RecvEv
  /-- bytes the client has been sent so far -/
  sent : List Byte
  /-- the length asked for by each `send` call so far, in call order -/
  send_reqs : List Nat
  /-- answers to the coming `send` calls -/
  sends : List IoRes
deriving DecidableEq, Repr

/-- The answer of the environment to `accept`: an error, or a new connection. -/
inductive AcceptRes where
  | err (errno : Nat)
  | ok (c : Conn)
deriving DecidableEq, Repr

/-- The globals `sig_caught`, `socket_fd`, `output_fd`, `conn_fd` and what the
kernel holds for them. -/
structure Proc where
  /-- the flag `static int sig_caught` -/
  sig_caught : Int
  /-- the listening socket has been shut down for reading -/
  sock_shut_rd : Bool
  /-- number of `accept` calls made so far -/
  accepts : Nat
  /-- number of descriptors on the log file that are open -/
  log_fds : Nat
  /-- number of connection descriptors that are open -/
  conn_fds : Nat
deriving DecidableEq, Repr

/-! ## System calls -/

/-- The call `write(output_fd, buf, len)` on a descriptor opened with `O_APPEND`: the bytes
go to the end of the file.  Returns `-1` or the number of bytes stored. -/
def sys_write (data : List Byte) (lf : LogFile) : Int × LogFile :=
  match lf.writes with
  | [] => (data.length, { lf with log := lf.log ++ data, pos := (lf.log ++ data).length })
  | IoRes.err _ :: rest => (-1, { lf with writes := rest })
  | IoRes.ret n :: rest =>
      let stored := data.take n
      (stored.length,
        { lf with log := lf.log ++ stored, pos := (lf.log ++ stored).length, writes := rest })

/-- The call `lseek(output_fd, off, SEEK_SET)`.  Returns `-1` or the new offset. -/
def sys_lseek (off : Nat) (lf : LogFile) : Int × LogFile :=
  match lf.lseeks with
  | [] => (off, { lf with pos := off })
  | IoRes.err _ :: rest => (-1, { lf with lseeks := rest })
  | IoRes.ret _ :: rest => (off, { lf with pos := off, lseeks := rest })

/-- The call `read(output_fd, buf, req)`: the answer and the bytes delivered, which start at
the file offset and advance it. -/
def sys_read (req : Nat) (lf : LogFile) : IoRes × List Byte × LogFile :=
  match lf.reads with
  | [] =>
      let got := (lf.log.drop lf.pos).take req
      (IoRes.ret got.length, got, { lf with pos := lf.pos + got.length })
  | IoRes.err e :: rest => (IoRes.err e, [], { lf with reads := rest })
  | IoRes.ret n :: rest =>
      let got := (lf.log.drop lf.pos).take (min n req)
      (IoRes.ret got.length, got, { lf with pos := lf.pos + got.length, reads := rest })

/-- The call `recv(conn_fd, buf, req, MSG_DONTWAIT)`: the answer and the bytes delivered.
An answer longer than the request is cut to the request. -/
def sys_recv (req : Nat) (c : Conn) : IoRes × List Byte × Conn :=
  match c.inbound with
  | [] => (IoRes.ret 0, [], c)
  | RecvEv.err e :: rest => (IoRes.err e, [], { c with inbound := rest })
  | RecvEv.data chunk :: rest =>
      let got := chunk.take req
      (IoRes.ret got.length, got, { c with inbound := rest })

/-- The call `send(conn_fd, p, req, MSG_MORE)` where `data` are the bytes of the array
from `p` on.  Bytes past the end of the array are not modelled: a request that runs
past it is counted as accepted but adds only the bytes the array holds. -/
def sys_send (data : List Byte) (req : Nat) (c : Conn) : IoRes × Conn :=
  match c.sends with
  | [] =>
      let out := data.take req
      (IoRes.ret req, { c with sent := c.sent ++ out, send_reqs := c.send_reqs ++ [req] })
  | IoRes.err e :: rest => (IoRes.err e, { c with send_reqs := c.send_reqs ++ [req], sends := rest })
  | IoRes.ret n :: rest =>
      let k := min n req
      (IoRes.ret k,
        { c with sent := c.sent ++ data.take k, send_reqs := c.send_reqs ++ [req], sends := rest })

/-- Storing `data` at the start of the buffer `buf`, as `read` and `recv` do. -/
def blit (data buf : List Byte) : List Byte :=
  data ++ buf.drop data.length

/-- An uninitialised `char[BUF_MAX_LEN]` array on the stack (zero-filled in the model). -/
def fresh_buf : List Byte := List.replicate BUF_MAX_LEN 0

/-! ## The program -/

/-- The C function `sig_handler`: shuts the listening socket down for reading and
sets the flag. -/
def sig_handler (p : Proc) : Proc :=
  { p with sock_shut_rd := true, sig_caught := 1 }

/-- The C function `bind_socket`, as a function of what `getaddrinfo`, `socket` and
`bind` return.  A failing `setsockopt` is only reported.  Returns `-1` or `0`. -/
def bind_socket (gai_ret socket_ret bind_ret : Int) : Int :=
  if gai_ret = -1 then -1
  else if socket_ret = -1 then -1
  else if bind_ret = -1 then -1
  else 0

/-- The C function `accept_connection`.  Returns `-1` on error and `0` on success. -/
def accept_connection (a : AcceptRes) (p : Proc) : Int × Proc × Option Conn :=
  match a with
  | AcceptRes.err _ => (-1, { p with accepts := p.accepts + 1 }, none)
  | AcceptRes.ok c =>
      (0, { p with accepts := p.accepts + 1, conn_fds := p.conn_fds + 1 }, some c)

/-- The C function `recieve_data`: the value returned, the buffer, the connection. -/
def recieve_data : Nat → List Byte → Conn → Option (Int × List Byte × Conn)
  | 0, _, _ => none
  | fuel + 1, buf, c =>
      match sys_recv BUF_MAX_LEN c with
      | (IoRes.err e, _, c1) =>
          if e = EINTR then recieve_data fuel buf c1 else some (-1, buf, c1)
      | (IoRes.ret n, got, c1) => some (n, blit got buf, c1)

/-- The `while` loop of `read_output`, entered with the current `read_len`. -/
def read_output_loop : Nat → List Byte → Nat → LogFile → Option (Int × List Byte × LogFile)
  | 0, _, _, _ => none
  | fuel + 1, buf, read_len, lf =>
      if read_len ≤ SIZEOF_BUF then
        match sys_read BUF_MAX_LEN lf with
        | (IoRes.err e, _, lf1) =>
            if e = EINTR then some (-1, buf, lf1) else some (read_len, buf, lf1)
        | (IoRes.ret n, got, lf1) =>
            if n = 0 then some (read_len, buf, lf1)
            else read_output_loop fuel (blit got buf) (read_len + n) lf1
      else some (read_len, buf, lf)

/-- The C function `read_output`: the value returned, the buffer, the file. -/
def read_output (fuel : Nat) (buf : List Byte) (off : Nat) (lf : LogFile) :
    Option (Int × List Byte × LogFile) :=
  match sys_lseek off lf with
  | (r, lf1) => if r = -1 then some (-1, buf, lf1) else read_output_loop fuel buf 0 lf1

/-- The `while` loop of `send_output`, entered with the current `sent_len`. -/
def send_output_loop : Nat → List Byte → Nat → Nat → Conn → Option (Nat × Conn)
  | 0, _, _, _, _ => none
  | fuel + 1, buf, len, sent_len, c =>
      if sent_len < len then
        let send_len := if len - sent_len > BUF_MAX_LEN then BUF_MAX_LEN else len - sent_len
        match sys_send (buf.drop sent_len) send_len c with
        | (IoRes.err _, c1) => send_output_loop fuel buf len sent_len c1
        | (IoRes.ret n, c1) => send_output_loop fuel buf len (sent_len + n) c1
      else some (sent_len, c)

/-- The C function `send_output`: the value returned and the connection. -/
def send_output (fuel : Nat) (buf : List Byte) (len : Nat) (c : Conn) : Option (Nat × Conn) :=
  send_output_loop fuel buf len 0 c

/-- The C function `write_output`: one `write`, then `fsync`.  Returns `-1` or what
`write` returned. -/
def write_output (buf : List Byte) (len : Nat) (lf : LogFile) : Int × LogFile :=
  match sys_write (buf.take len) lf with
  | (write_len, lf1) => if write_len = -1 then (-1, lf1) else (write_len, lf1)

/-- The first `while (1)` loop of `process_incoming`: receive and append.  The
argument `k` is the fuel handed to the loop inside `recieve_data`. -/
def recv_loop (k : Nat) : Nat → Conn → LogFile → Option (Conn × LogFile)
  | 0, _, _ => none
  | fuel + 1, c, lf =>
      match recieve_data k fresh_buf c with
      | none => none
      | some (recv_len, recv_buf, c1) =>
          if recv_len ≤ 0 then some (c1, lf)
          else recv_loop k fuel c1 (write_output recv_buf recv_len.toNat lf).2

/-- The second `while (1)` loop of `process_incoming`: read the file from `off` on
and send it.  Returns the final `off`.  The argument `k` is the fuel handed to the
loops inside `read_output` and `send_output`. -/
def stream_loop (k : Nat) : Nat → Nat → LogFile → Conn → Option (Nat × LogFile × Conn)
  | 0, _, _, _ => none
  | fuel + 1, off, lf, c =>
      match read_output k fresh_buf off lf with
      | none => none
      | some (read_len, read_buf, lf1) =>
          if read_len = -1 then stream_loop k fuel off lf1 c
          else if read_len = 0 then some (off, lf1, c)
          else
            match send_output k read_buf read_len.toNat c with
            | none => none
            | some (_, c1) => stream_loop k fuel (off + read_len.toNat) lf1 c1

/-- The C function `process_incoming`.  The connection of the result is `none` when
`accept_connection` failed. -/
def process_incoming (fuel : Nat) (a : AcceptRes) (p : Proc) (lf : LogFile) :
    Option (Proc × LogFile × Option Conn) :=
  match accept_connection a p with
  | (_, p1, none) => some (p1, lf, none)
  | (_, p1, some c) =>
      match recv_loop fuel fuel c lf with
      | none => none
      | some (c1, lf1) =>
          match stream_loop fuel fuel 0 lf1 c1 with
          | none => none
          | some (_, lf2, c2) =>
              some ({ p1 with conn_fds := p1.conn_fds - 1, log_fds := p1.log_fds - 1 },
                lf2, some c2)

/-- What the environment does during one pass through the body of the accept loop. -/
structure IterEnv where
  /-- the call `open(OUTPUT_FILE, ...)` succeeds -/
  open_ok : Bool
  /-- a SIGINT or SIGTERM is delivered during this pass, before `accept` returns -/
  sig : Bool
  /-- a SIGINT or SIGTERM is delivered during this pass, after `accept` has returned -/
  sig_late : Bool
  /-- the answer the listening socket has for `accept` as long as it is not shut down -/
  accept : AcceptRes
deriving DecidableEq, Repr

/-- The call `accept(socket_fd, ...)`.  A socket that `shutdown(socket_fd, SHUT_RD)` has
shut down is no longer listening and the call fails with `EINVAL` (the comment in
`accept_connection`: "invalid argument indicates the socket has been shutdown");
otherwise the answer is the one the environment has for the listening socket. -/
def sys_accept (a : AcceptRes) (p : Proc) : AcceptRes :=
  if p.sock_shut_rd then AcceptRes.err EINVAL else a

/-- The globals at the moment `accept` returns in a pass that started from `p`: the
log file has been opened, and the handler has run if a signal came in. -/
def before_accept (it : IterEnv) (p : Proc) : Proc :=
  if it.sig then sig_handler { p with log_fds := p.log_fds + 1 }
  else { p with log_fds := p.log_fds + 1 }

/-- How one pass through the body of the accept loop ends. -/
inductive IterOutcome where
  /-- the function `handle_connections` returns `code` from inside the loop -/
  | returned (code : Int) (p : Proc) (lf : LogFile)
  /-- control goes back to the test `sig_caught == 0` -/
  | next (p : Proc) (lf : LogFile) (c : Option Conn)
deriving DecidableEq, Repr

/-- The body of the loop `while (sig_caught == 0)` in `handle_connections`: open the
log file, then `process_incoming`, whose `accept` call is answered by `sys_accept`. -/
def loop_body (fuel : Nat) (it : IterEnv) (p : Proc) (lf : LogFile) : Option IterOutcome :=
  if it.open_ok = false then some (IterOutcome.returned (-1) p lf)
  else
    let lf1 := { lf with pos := 0 }
    let p2 := before_accept it p
    match process_incoming fuel (sys_accept it.accept p2) p2 lf1 with
    | none => none
    | some (p3, lf3, c) =>
        some (IterOutcome.next (if it.sig_late then sig_handler p3 else p3) lf3 c)

/-- The loop `while (sig_caught == 0)` of `handle_connections`.  The result is `none`
when the server is left waiting in `accept` because the environment has nothing more
to offer, or when the fuel of an inner loop ran out. -/
def accept_loop (fuel : Nat) : List IterEnv → Proc → LogFile → Option (Int × Proc × LogFile)
  | [], p, lf => if p.sig_caught = 0 then none else some (0, p, lf)
  | it :: rest, p, lf =>
      if p.sig_caught = 0 then
        match loop_body fuel it p lf with
        | none => none
        | some (IterOutcome.returned code p1 lf1) => some (code, p1, lf1)
        | some (IterOutcome.next p1 lf1 _) => accept_loop fuel rest p1 lf1
      else some (0, p, lf)

/-- What the environment does while `handle_connections` runs. -/
structure HcEnv where
  /-- the call `signal(SIGINT, sig_handler)` does not return `SIG_ERR` -/
  signal_int_ok : Bool
  /-- the call `signal(SIGTERM, sig_handler)` does not return `SIG_ERR` -/
  signal_term_ok : Bool
  /-- the value returned by `listen(socket_fd, 100)` -/
  listen_ret : Int
  /-- one entry for each pass through the accept loop -/
  iters : List IterEnv
deriving DecidableEq, Repr

/-- The C function `handle_connections`.  Returns `-1` on error and `0` on success. -/
def handle_connections (fuel : Nat) (env : HcEnv) (p : Proc) (lf : LogFile) :
    Option (Int × Proc × LogFile) :=
  if env.signal_int_ok = false || env.signal_term_ok = false then some (-1, p, lf)
  else if env.listen_ret = -1 then some (-1, p, lf)
  else accept_loop fuel env.iters p lf

/-- What the environment does while `main` runs. -/
structure MainEnv where
  /-- the option `-d` is among the arguments -/
  daemon_flag : Bool
  /-- the value returned by `getaddrinfo` -/
  gai_ret : Int
  /-- the value returned by `socket` -/
  socket_ret : Int
  /-- the value returned by `bind` -/
  bind_ret : Int
  /-- the value returned by `fork` -/
  fork_ret : Int
  /-- the value returned by `readlink` -/
  readlink_ret : Int
  /-- the value returned by `execv`, when it returns -/
  execv_ret : Option Int
  /-- the environment of `handle_connections` -/
  hc : HcEnv
  /-- the log file when the process starts -/
  lf : LogFile
deriving DecidableEq, Repr

/-- How the process ends. -/
inductive ProcEnd where
  /-- the call `exit(status)` -/
  | exit (status : Int)
  /-- the call `execv` replaced the process image -/
  | exec
deriving DecidableEq, Repr

/-- The globals when `main` starts. -/
def Proc.init : Proc :=
  { sig_caught := 0, sock_shut_rd := false, accepts := 0, log_fds := 0, conn_fds := 0 }

/-- The C function `main`. -/
def main (fuel : Nat) (env : MainEnv) : Option ProcEnd :=
  let daemon_mode : Int := if env.daemon_flag then 1 else 0
  if bind_socket env.gai_ret env.socket_ret env.bind_ret = -1 then
    some (ProcEnd.exit EXIT_FAILURE)
  else if daemon_mode = 1 ∧ env.fork_ret > 0 then some (ProcEnd.exit EXIT_SUCCESS)
  else if daemon_mode = 1 ∧ env.fork_ret = 0 then
    if env.readlink_ret = -1 then some (ProcEnd.exit EXIT_FAILURE)
    else
      match env.execv_ret with
      | none => some ProcEnd.exec
      | some ret => if ret = -1 then some (ProcEnd.exit EXIT_FAILURE) else some (ProcEnd.exit 0)
  else if daemon_mode = 1 ∧ env.fork_ret = -1 then some (ProcEnd.exit EXIT_FAILURE)
  else if daemon_mode = 0 then
    match handle_connections fuel env.hc Proc.init env.lf with
    | none => none
    | some (_exit_code, _, _) => some (ProcEnd.exit 0)
  else some (ProcEnd.exit 0)

/-! ## What the specification expects, for comparison -/

/-- The specification's reassembler, in the words of the spec: the complete
newline-terminated records among `bytes`, that is, everything up to and including
the last newline; bytes after the last newline are residue. -/
def spec_complete_records : List Byte → List Byte
  | [] => []
  | b :: bs =>
      if spec_complete_records bs ≠ [] ∨ b = NL then b :: spec_complete_records bs else []

/-- The specification's replay rule, in the words of the spec: after each record
the entire current log is sent, so the client is sent the log after record 1, then
the log after record 2, and so on. -/
def spec_replies : List Byte → List (List Byte) → List Byte
  | _, [] => []
  | log, r :: rs => (log ++ r) ++ spec_replies (log ++ r) rs

/-- A record: bytes that end in a newline and hold no other newline. -/
def IsRecord (r : List Byte) : Prop :=
  ∃ body : List Byte, r = body ++ [NL] ∧ NL ∉ body

/-- The state invariant that ties the socket to the flag: the listening socket is shut
down only by `sig_handler`, which also sets `sig_caught`. -/
def ShutImpliesCaught (p : Proc) : Prop :=
  p.sock_shut_rd = true → p.sig_caught = 1

/-- Every answer of a `send` script accepts at least one byte. -/
def SendsAccept (sends : List IoRes) : Prop :=
  ∀ a ∈ sends, ∃ n, a = IoRes.ret n ∧ 1 ≤ n

/-- A log file whose `lseek` and `read` calls behave as on an idle regular file:
the seek succeeds and each read returns `min(req, bytes remaining)`. -/
def ReadsIdeal (lf : LogFile) : Prop :=
  lf.lseeks = [] ∧ lf.reads = []


/-! ## Auxiliary facts about the buffers and the system calls -/

theorem blit_nil (buf : List Byte) : blit [] buf = buf := by
  simp [blit]

theorem take_blit (data buf : List Byte) : (blit data buf).take data.length = data := by
  simp [blit]

theorem drop_length_take_lt {l : List Byte} {off B : Nat}
    (h : ((l.drop off).take B).length < B) :
    l.drop (off + ((l.drop off).take B).length) = [] := by
  rw [List.length_take, List.length_drop] at h
  rw [List.length_take, List.length_drop]
  apply List.drop_eq_nil_of_le
  omega

theorem take_drop_step (buf : List Byte) (s a m : Nat) (h : a ≤ m) :
    (buf.drop s).take a ++ (buf.drop (s + a)).take (m - a) = (buf.drop s).take m := by
  have e : m = a + (m - a) := by omega
  conv_rhs => rw [e, List.take_add]
  rw [List.drop_drop]

/-- One `recv` that delivers a non-empty chunk within the buffer size. -/
theorem recieve_data_chunk (k : Nat) (buf ch : List Byte) (c : Conn) (rest : List RecvEv)
    (hin : c.inbound = RecvEv.data ch :: rest) (hlen : ch.length ≤ BUF_MAX_LEN) :
    recieve_data (k + 1) buf c
      = some ((ch.length : Int), blit ch buf, { c with inbound := rest }) := by
  simp [recieve_data, sys_recv, hin, List.take_of_length_le hlen]

/-- At end-of-stream `recv` returns 0. -/
theorem recieve_data_eos (k : Nat) (buf : List Byte) (c : Conn) (hin : c.inbound = []) :
    recieve_data (k + 1) buf c = some (0, blit [] buf, c) := by
  simp [recieve_data, sys_recv, hin]

/-- One `write` that stores everything appends the bytes and returns their number. -/
theorem write_output_full (buf : List Byte) (len : Nat) (lf : LogFile) (hw : lf.writes = []) :
    write_output buf len lf
      = (((buf.take len).length : Int),
          { lf with log := lf.log ++ buf.take len, pos := (lf.log ++ buf.take len).length }) := by
  have hne : ¬ (((buf.take len).length : Int) = -1) := by omega
  simp only [write_output, sys_write, hw]
  rw [if_neg hne]

/-- The receive loop on a connection that delivers `chunks` and is then closed by the
peer, when every write stores all bytes: every chunk is appended to the log. -/
theorem recv_loop_chunks (k : Nat) (chunks : List (List Byte)) :
    ∀ (fuel : Nat) (c : Conn) (lf : LogFile),
      c.inbound = chunks.map RecvEv.data →
      (∀ ch ∈ chunks, ch ≠ [] ∧ ch.length ≤ BUF_MAX_LEN) →
      lf.writes = [] → 1 ≤ k → chunks.length + 1 ≤ fuel →
      ∃ lf1, recv_loop k fuel c lf = some ({ c with inbound := [] }, lf1) ∧
        lf1.log = lf.log ++ chunks.flatten ∧ lf1.writes = [] ∧
        lf1.lseeks = lf.lseeks ∧ lf1.reads = lf.reads := by
  induction chunks with
  | nil =>
      intro fuel c lf hin _ hw hk hfuel
      obtain ⟨f, rfl⟩ : ∃ f, fuel = f + 1 := ⟨fuel - 1, by omega⟩
      obtain ⟨k1, rfl⟩ : ∃ k1, k = k1 + 1 := ⟨k - 1, by omega⟩
      have hin0 : c.inbound = [] := by simpa using hin
      refine ⟨lf, ?_, by simp, hw, rfl, rfl⟩
      have hc : ({ c with inbound := [] } : Conn) = c := by
        cases c; simp_all
      simp [recv_loop, recieve_data_eos k1 fresh_buf c hin0, hc]
  | cons ch rest ih =>
      intro fuel c lf hin hch hw hk hfuel
      obtain ⟨f, rfl⟩ : ∃ f, fuel = f + 1 := ⟨fuel - 1, by simp at hfuel; omega⟩
      obtain ⟨k1, rfl⟩ : ∃ k1, k = k1 + 1 := ⟨k - 1, by omega⟩
      have hin1 : c.inbound = RecvEv.data ch :: rest.map RecvEv.data := by simpa using hin
      have hch1 := hch ch (by simp)
      have hpos : 0 < ch.length := List.length_pos.mpr hch1.1
      have hnot : ¬ ((ch.length : Int) ≤ 0) := by omega
      have hstep : recv_loop (k1 + 1) (f + 1) c lf
          = recv_loop (k1 + 1) f { c with inbound := rest.map RecvEv.data }
              (write_output (blit ch fresh_buf) ch.length lf).2 := by
        simp [recv_loop, recieve_data_chunk k1 fresh_buf ch c _ hin1 hch1.2, hnot]
      rw [hstep, write_output_full _ _ _ hw, take_blit]
      obtain ⟨lf1, h1, h2, h3, h4, h5⟩ :=
        ih f { c with inbound := rest.map RecvEv.data }
          { lf with log := lf.log ++ ch, pos := (lf.log ++ ch).length } rfl
          (fun x hx => hch x (by simp [hx])) hw hk (by simp at hfuel; omega)
      exact ⟨lf1, by simpa using h1, by simpa using h2, h3, h4, h5⟩

/-- With ideal reads `read_output` returns the next `min(BUF_MAX_LEN, remaining)` bytes
of the file from `off` on, in the buffer. -/
theorem read_output_ideal (k : Nat) (buf : List Byte) (off : Nat) (lf : LogFile)
    (hr : ReadsIdeal lf) (hk : 2 ≤ k) :
    read_output k buf off lf
      = some ((((lf.log.drop off).take BUF_MAX_LEN).length : Int),
          blit ((lf.log.drop off).take BUF_MAX_LEN) buf,
          { lf with pos := off + ((lf.log.drop off).take BUF_MAX_LEN).length }) := by
  obtain ⟨k2, rfl⟩ : ∃ k2, k = k2 + 2 := ⟨k - 2, by omega⟩
  obtain ⟨hl, hrd⟩ := hr
  have hoff : ¬ ((off : Int) = -1) := by omega
  simp only [read_output, sys_lseek, hl, if_neg hoff]
  by_cases h0 : ((lf.log.drop off).take BUF_MAX_LEN).length = 0
  · have hnil : (lf.log.drop off).take BUF_MAX_LEN = [] := List.length_eq_zero.mp h0
    simp [read_output_loop, sys_read, hrd, hnil, blit_nil, SIZEOF_BUF]
  · by_cases h8 : ((lf.log.drop off).take BUF_MAX_LEN).length ≤ SIZEOF_BUF
    · have hlt : ((lf.log.drop off).take BUF_MAX_LEN).length < BUF_MAX_LEN := by
        have : SIZEOF_BUF < BUF_MAX_LEN := by decide
        omega
      have hrest := drop_length_take_lt hlt
      simp only [read_output_loop, sys_read, hrd, Nat.zero_le, if_true, h0, if_false,
        Nat.zero_add, h8, hrest, List.take_nil, List.length_nil, Nat.add_zero]
    · simp only [read_output_loop, sys_read, hrd, Nat.zero_le, if_true, h0, if_false,
        Nat.zero_add, h8]

theorem SendsAccept.tail {a : IoRes} {rest : List IoRes} (h : SendsAccept (a :: rest)) :
    SendsAccept rest :=
  fun x hx => h x (List.mem_cons_of_mem a hx)

/-- One step of the send loop followed by the rest of the loop. -/
theorem send_output_loop_glue (buf : List Byte) (len sent_len a req : Nat) (c c1 c2 : Conn)
    (new : List Nat) (ha : a ≤ len - sent_len) (hreq : 1 ≤ req ∧ req ≤ BUF_MAX_LEN)
    (hsent1 : c1.sent = c.sent ++ (buf.drop sent_len).take a)
    (hreqs1 : c1.send_reqs = c.send_reqs ++ [req])
    (hin1 : c1.inbound = c.inbound)
    (hsent2 : c2.sent = c1.sent ++ (buf.drop (sent_len + a)).take (len - (sent_len + a)))
    (hin2 : c2.inbound = c1.inbound)
    (hreqs2 : c2.send_reqs = c1.send_reqs ++ new)
    (hnew : ∀ q ∈ new, 1 ≤ q ∧ q ≤ BUF_MAX_LEN) :
    c2.sent = c.sent ++ (buf.drop sent_len).take (len - sent_len) ∧
      c2.inbound = c.inbound ∧
      c2.send_reqs = c.send_reqs ++ (req :: new) ∧
      ∀ q ∈ req :: new, 1 ≤ q ∧ q ≤ BUF_MAX_LEN := by
  refine ⟨?_, by rw [hin2, hin1], by rw [hreqs2, hreqs1]; simp, ?_⟩
  · have e : len - (sent_len + a) = (len - sent_len) - a := by omega
    rw [hsent2, hsent1, e, List.append_assoc, take_drop_step buf sent_len a _ ha]
  · intro q hq
    rcases List.mem_cons.mp hq with rfl | hq
    · exact hreq
    · exact hnew q hq

/-- A `send` that is answered by an accepting script takes between 1 and `req` bytes. -/
theorem sys_send_accept (data : List Byte) (req : Nat) (c : Conn)
    (hs : SendsAccept c.sends) (hreq : 1 ≤ req) :
    ∃ a c1, sys_send data req c = (IoRes.ret a, c1) ∧ 1 ≤ a ∧ a ≤ req ∧
      SendsAccept c1.sends ∧ c1.sent = c.sent ++ data.take a ∧
      c1.inbound = c.inbound ∧ c1.send_reqs = c.send_reqs ++ [req] := by
  cases hsends : c.sends with
  | nil =>
      refine ⟨req, { c with sent := c.sent ++ data.take req, send_reqs := c.send_reqs ++ [req] },
        by simp [sys_send, hsends], hreq, le_refl _, ?_, rfl, rfl, rfl⟩
      simpa [hsends] using hs
  | cons x rest =>
      obtain ⟨n, rfl, hn⟩ := hs x (by simp [hsends])
      have hrest : SendsAccept rest := SendsAccept.tail (hsends ▸ hs)
      refine ⟨min n req,
        { c with sent := c.sent ++ data.take (min n req), send_reqs := c.send_reqs ++ [req],
                 sends := rest },
        by simp [sys_send, hsends], by omega, by omega, ?_, rfl, rfl, rfl⟩
      exact hrest

/-- When every `send` accepts at least one byte, the send loop ends having sent the
bytes of the buffer from `sent_len` up to `len`, asking for at most `BUF_MAX_LEN`
bytes in each call. -/
theorem send_output_loop_all (buf : List Byte) (len : Nat) :
    ∀ (k sent_len : Nat) (c : Conn),
      SendsAccept c.sends → sent_len ≤ len → len - sent_len + 1 ≤ k →
      ∃ c1 new, send_output_loop k buf len sent_len c = some (len, c1) ∧
        SendsAccept c1.sends ∧
        c1.sent = c.sent ++ (buf.drop sent_len).take (len - sent_len) ∧
        c1.inbound = c.inbound ∧
        c1.send_reqs = c.send_reqs ++ new ∧ ∀ q ∈ new, 1 ≤ q ∧ q ≤ BUF_MAX_LEN := by
  intro k
  induction k with
  | zero => intro sent_len c _ _ hk; omega
  | succ k ih =>
      intro sent_len c hs hle hk
      by_cases hlt : sent_len < len
      · have hB : 1 ≤ BUF_MAX_LEN := by decide
        obtain ⟨req, hreq⟩ : ∃ req, req =
            (if len - sent_len > BUF_MAX_LEN then BUF_MAX_LEN else len - sent_len) := ⟨_, rfl⟩
        have hreq1 : 1 ≤ req ∧ req ≤ BUF_MAX_LEN ∧ req ≤ len - sent_len := by
          rw [hreq]; split <;> omega
        obtain ⟨a, c1, hsend, ha1, ha2, hs1, hsent1, hin1, hreqs1⟩ :=
          sys_send_accept (buf.drop sent_len) req c hs hreq1.1
        obtain ⟨c2, new, h1, h2, h3, h4, h5, h6⟩ := ih (sent_len + a) c1 hs1 (by omega) (by omega)
        refine ⟨c2, req :: new, ?_, h2, ?_⟩
        · rw [← h1]
          simp only [send_output_loop, hlt, if_true, ← hreq, hsend]
        · exact send_output_loop_glue buf len sent_len a req c c1 c2 new
            (by omega) ⟨hreq1.1, hreq1.2.1⟩ hsent1 hreqs1 hin1 h3 h4 h5 h6
      · have e : sent_len = len := by omega
        subst e
        refine ⟨c, [], ?_, hs, by simp, rfl, by simp, by simp⟩
        simp [send_output_loop]

theorem take_append_drop_length (m : List Byte) (B : Nat) :
    m.take B ++ m.drop (m.take B).length = m := by
  rcases Nat.lt_or_ge B m.length with h | h
  · rw [List.length_take, Nat.min_eq_left (le_of_lt h), List.take_append_drop]
  · rw [List.take_of_length_le h, List.drop_length, List.append_nil]

/-- The stream-back loop with ideal reads and accepting sends: it ends, with `off`
at the end of the file, having sent the file from `off` on. -/
theorem stream_loop_ideal (k : Nat) (hk : BUF_MAX_LEN + 1 ≤ k) :
    ∀ (fuel off : Nat) (lf : LogFile) (c : Conn),
      ReadsIdeal lf → SendsAccept c.sends → off ≤ lf.log.length →
      lf.log.length - off + 1 ≤ fuel →
      ∃ lf1 c1 new, stream_loop k fuel off lf c = some (lf.log.length, lf1, c1) ∧
        lf1.log = lf.log ∧ lf1.writes = lf.writes ∧
        c1.sent = c.sent ++ lf.log.drop off ∧ c1.inbound = c.inbound ∧
        c1.send_reqs = c.send_reqs ++ new ∧ ∀ q ∈ new, 1 ≤ q ∧ q ≤ BUF_MAX_LEN := by
  intro fuel
  induction fuel with
  | zero => intro off lf c _ _ _ hf; omega
  | succ fuel ih =>
      intro off lf c hr hs hoff hf
      have hB : 2 ≤ BUF_MAX_LEN := by decide
      have hread := read_output_ideal k fresh_buf off lf hr (by omega)
      obtain ⟨data, hdata⟩ : ∃ data, data = (lf.log.drop off).take BUF_MAX_LEN := ⟨_, rfl⟩
      rw [← hdata] at hread
      have hlen : data.length = min BUF_MAX_LEN (lf.log.length - off) := by
        rw [hdata, List.length_take, List.length_drop]
      by_cases h0 : data.length = 0
      · have hend : off = lf.log.length := by omega
        have hnil : lf.log.drop off = [] := List.drop_eq_nil_of_le (by omega)
        refine ⟨{ lf with pos := off + data.length }, c, [], ?_, rfl, rfl, by simp [hnil], rfl,
          by simp, by simp⟩
        simp only [stream_loop, hread, h0]
        simp [hend]
      · have hne1 : ¬ ((data.length : Int) = -1) := by omega
        have hne0 : ¬ ((data.length : Int) = 0) := by omega
        obtain ⟨c1, new1, hsend, hs1, hsent1, hin1, hreqs1, hnew1⟩ :=
          send_output_loop_all (blit data fresh_buf) data.length k 0 c hs (by omega) (by omega)
        have hsent1a : c1.sent = c.sent ++ data := by
          rw [hsent1]; simp [take_blit]
        obtain ⟨lf2, c2, new2, hloop, hlog2, hw2, hsent2, hin2, hreqs2, hnew2⟩ :=
          ih (off + data.length) { lf with pos := off + data.length } c1 hr hs1
            (by simp only; omega) (by simp only; omega)
        refine ⟨lf2, c2, new1 ++ new2, ?_, hlog2, hw2, ?_, by rw [hin2, hin1], ?_, ?_⟩
        · simp only [stream_loop, hread, hne1, hne0, if_false, send_output, hsend,
            Int.toNat_natCast]
          exact hloop
        · rw [hsent2, hsent1a, List.append_assoc]
          congr 1
          have := take_append_drop_length (lf.log.drop off) BUF_MAX_LEN
          rw [← hdata, List.drop_drop] at this
          exact this
        · rw [hreqs2, hreqs1, List.append_assoc]
        · intro q hq
          rcases List.mem_append.mp hq with h | h
          · exact hnew1 q h
          · exact hnew2 q h

theorem length_le_length_flatten (chunks : List (List Byte))
    (h : ∀ ch ∈ chunks, ch ≠ [] ∧ ch.length ≤ BUF_MAX_LEN) :
    chunks.length ≤ chunks.flatten.length := by
  induction chunks with
  | nil => simp
  | cons ch rest ih =>
      have h1 : 0 < ch.length := List.length_pos.mpr (h ch (by simp)).1
      have h2 := ih (fun x hx => h x (by simp [hx]))
      simp only [List.length_cons, List.flatten_cons, List.length_append]
      omega

/-- A whole connection under ideal conditions: the chunks are appended to the log and
then the log is sent once, from its first byte to its last. -/
theorem process_incoming_ideal (fuel : Nat) (c : Conn) (p : Proc) (lf : LogFile)
    (chunks : List (List Byte))
    (hin : c.inbound = chunks.map RecvEv.data)
    (hch : ∀ ch ∈ chunks, ch ≠ [] ∧ ch.length ≤ BUF_MAX_LEN)
    (hw : lf.writes = []) (hr : ReadsIdeal lf) (hs : SendsAccept c.sends)
    (hfuel : lf.log.length + chunks.flatten.length + BUF_MAX_LEN + 2 ≤ fuel) :
    ∃ lf1 c1 new,
      process_incoming fuel (AcceptRes.ok c) p lf
        = some ({ p with accepts := p.accepts + 1, conn_fds := p.conn_fds + 1 - 1,
                         log_fds := p.log_fds - 1 }, lf1, some c1) ∧
      lf1.log = lf.log ++ chunks.flatten ∧
      c1.sent = c.sent ++ (lf.log ++ chunks.flatten) ∧
      c1.send_reqs = c.send_reqs ++ new ∧ ∀ q ∈ new, 1 ≤ q ∧ q ≤ BUF_MAX_LEN := by
  have hlen := length_le_length_flatten chunks hch
  obtain ⟨lf1, hrecv, hlog1, _, hl1, hr1⟩ :=
    recv_loop_chunks fuel chunks fuel c lf hin hch hw (by omega) (by omega)
  have hideal1 : ReadsIdeal lf1 := ⟨hl1.trans hr.1, hr1.trans hr.2⟩
  obtain ⟨lf2, c2, new, hstream, hlog2, _, hsent2, _, hreqs2, hnew⟩ :=
    stream_loop_ideal fuel (by omega) fuel 0 lf1 { c with inbound := [] } hideal1 hs
      (Nat.zero_le _) (by rw [hlog1, List.length_append]; omega)
  refine ⟨lf2, c2, new, ?_, by rw [hlog2, hlog1], ?_, hreqs2, hnew⟩
  · simp only [process_incoming, accept_connection, hrecv, hstream]
  · rw [hsent2, hlog1]; simp

/-- The function `process_incoming` does not write `sig_caught`. -/
theorem process_incoming_sig_caught (fuel : Nat) (a : AcceptRes) (p : Proc) (lf : LogFile)
    (r : Proc × LogFile × Option Conn) (h : process_incoming fuel a p lf = some r) :
    r.1.sig_caught = p.sig_caught := by
  cases a with
  | err e =>
      simp only [process_incoming, accept_connection, Option.some.injEq] at h
      rw [← h]
  | ok c =>
      simp only [process_incoming, accept_connection] at h
      cases hrecv : recv_loop fuel fuel c lf with
      | none => rw [hrecv] at h; simp at h
      | some x =>
          obtain ⟨c1, lf1⟩ := x
          rw [hrecv] at h
          simp only at h
          cases hstream : stream_loop fuel fuel 0 lf1 c1 with
          | none => rw [hstream] at h; simp at h
          | some y =>
              obtain ⟨o, lf2, c2⟩ := y
              rw [hstream] at h
              simp only [Option.some.injEq] at h
              rw [← h]

/-- One pass through the loop body leaves `sig_caught` alone or, when the handler
runs, sets it to 1. -/
theorem loop_body_sig_caught (fuel : Nat) (it : IterEnv) (p : Proc) (lf : LogFile)
    (o : IterOutcome) (h : loop_body fuel it p lf = some o) :
    (∀ code q lf1, o = IterOutcome.returned code q lf1 → q.sig_caught = p.sig_caught) ∧
    (∀ q lf1 c, o = IterOutcome.next q lf1 c →
      q.sig_caught = if it.sig = true ∨ it.sig_late = true then 1 else p.sig_caught) := by
  unfold loop_body at h
  by_cases ho : it.open_ok = false
  · rw [if_pos ho] at h
    simp only [Option.some.injEq] at h
    subst h
    refine ⟨?_, ?_⟩
    · intro code q lf1 hq
      simp only [IterOutcome.returned.injEq] at hq
      rw [← hq.2.1]
    · intro q lf1 c hq
      simp at hq
  · rw [if_neg ho] at h
    simp only at h
    cases hpi : process_incoming fuel (sys_accept it.accept (before_accept it p))
        (before_accept it p) { lf with pos := 0 } with
    | none => rw [hpi] at h; simp at h
    | some r =>
        have hs := process_incoming_sig_caught _ _ _ _ r hpi
        rw [hpi] at h
        simp only [Option.some.injEq] at h
        subst h
        refine ⟨?_, ?_⟩
        · intro code q lf1 hq
          simp at hq
        · intro q lf1 c hq
          simp only [IterOutcome.next.injEq] at hq
          rw [← hq.1]
          cases h1 : it.sig <;> cases h2 : it.sig_late <;>
            simp [sig_handler, hs, before_accept, h1]

/-- The invariant `ShutImpliesCaught` holds when `main` starts and `sig_handler`
establishes it. -/
theorem shutImpliesCaught_init_and_handler (p : Proc) :
    ShutImpliesCaught Proc.init ∧ ShutImpliesCaught (sig_handler p) :=
  ⟨fun h => (by cases h), fun _ => rfl⟩

/-- The function `process_incoming` does not touch the state of the listening socket. -/
theorem process_incoming_sock_shut_rd (fuel : Nat) (a : AcceptRes) (p : Proc) (lf : LogFile)
    (r : Proc × LogFile × Option Conn) (h : process_incoming fuel a p lf = some r) :
    r.1.sock_shut_rd = p.sock_shut_rd := by
  cases a with
  | err e =>
      simp only [process_incoming, accept_connection, Option.some.injEq] at h
      rw [← h]
  | ok c =>
      simp only [process_incoming, accept_connection] at h
      cases hrecv : recv_loop fuel fuel c lf with
      | none => rw [hrecv] at h; simp at h
      | some x =>
          obtain ⟨c1, lf1⟩ := x
          rw [hrecv] at h
          simp only at h
          cases hstream : stream_loop fuel fuel 0 lf1 c1 with
          | none => rw [hstream] at h; simp at h
          | some y =>
              obtain ⟨o, lf2, c2⟩ := y
              rw [hstream] at h
              simp only [Option.some.injEq] at h
              rw [← h]

/-- A pass through the loop body keeps the invariant `ShutImpliesCaught`. -/
theorem loop_body_shutImpliesCaught (fuel : Nat) (it : IterEnv) (p : Proc) (lf : LogFile)
    (q : Proc) (lf1 : LogFile) (c : Option Conn) (hinv : ShutImpliesCaught p)
    (h : loop_body fuel it p lf = some (IterOutcome.next q lf1 c)) :
    ShutImpliesCaught q := by
  have hflag := (loop_body_sig_caught fuel it p lf _ h).2 q lf1 c rfl
  unfold loop_body at h
  by_cases ho : it.open_ok = false
  · rw [if_pos ho] at h; simp at h
  · rw [if_neg ho] at h
    simp only at h
    cases hpi : process_incoming fuel (sys_accept it.accept (before_accept it p))
        (before_accept it p) { lf with pos := 0 } with
    | none => rw [hpi] at h; simp at h
    | some r =>
        have hs := process_incoming_sock_shut_rd _ _ _ _ r hpi
        rw [hpi] at h
        simp only [Option.some.injEq, IterOutcome.next.injEq] at h
        intro hq
        rw [hflag]
        cases h1 : it.sig <;> cases h2 : it.sig_late
        · rw [← h.1, h2] at hq
          simp only [Bool.false_eq_true, if_false] at hq
          rw [hs] at hq
          simp only [before_accept, h1, Bool.false_eq_true, if_false] at hq
          simpa [h1, h2] using hinv hq
        · simp [h1, h2]
        · simp [h1, h2]
        · simp [h1, h2]

/-- The accept loop never clears a flag that is set. -/
theorem accept_loop_sig_caught (fuel : Nat) (its : List IterEnv) :
    ∀ (p : Proc) (lf : LogFile) (r : Int × Proc × LogFile),
      p.sig_caught = 1 → accept_loop fuel its p lf = some r → r.2.1.sig_caught = 1 := by
  intro p lf r hp h
  have hne : ¬ (p.sig_caught = 0) := by omega
  cases its with
  | nil =>
      simp only [accept_loop, if_neg hne, Option.some.injEq] at h
      rw [← h]; exact hp
  | cons it rest =>
      simp only [accept_loop, if_neg hne, Option.some.injEq] at h
      rw [← h]; exact hp

/-! ## The claims -/

/-- C1 (cumulative echo).  The log holds `records` (each newline-terminated), the
record `r` arrives on one connection cut into non-empty chunks of at most
`BUF_MAX_LEN` bytes and the peer then closes.  When every write stores all bytes,
reads are ideal and every send accepts at least one byte, `process_incoming` returns
and the bytes sent to the client are the old log followed by `r`, however `r` was
cut. -/
theorem cumulative_echo (records : List (List Byte)) (r : List Byte)
    (chunks : List (List Byte)) (fuel : Nat) (p : Proc) (lf : LogFile) (c : Conn)
    (hL : lf.log = records.flatten) (_hrec : ∀ x ∈ records, IsRecord x)
    (_hr : IsRecord r) (hsplit : chunks.flatten = r)
    (hch : ∀ ch ∈ chunks, ch ≠ [] ∧ ch.length ≤ BUF_MAX_LEN)
    (hin : c.inbound = chunks.map RecvEv.data) (hsent : c.sent = [])
    (hw : lf.writes = []) (hread : ReadsIdeal lf) (hs : SendsAccept c.sends)
    (hfuel : lf.log.length + r.length + BUF_MAX_LEN + 2 ≤ fuel) :
    ∃ p1 lf1 c1, process_incoming fuel (AcceptRes.ok c) p lf = some (p1, lf1, some c1) ∧
      c1.sent = records.flatten ++ r := by
  obtain ⟨lf1, c1, _, h1, _, h3, _, _⟩ :=
    process_incoming_ideal fuel c p lf chunks hin hch hw hread hs (by rw [hsplit]; exact hfuel)
  exact ⟨_, lf1, c1, h1, by rw [h3, hsent, hL, hsplit]; simp⟩

/-- C1, at the log `"one\n"` and the record `"two\n"` cut into `"tw"` and `"o\n"`, with
sends that accept 1 and then 3 bytes: the client is sent `"one\ntwo\n"`. -/
theorem cumulative_echo_witness :
    (∀ x ∈ [[(111 : Byte), 110, 101, 10]], IsRecord x) ∧ IsRecord [116, 119, 111, 10] ∧
    ∃ p1 lf1 c1,
      process_incoming 5200
          (AcceptRes.ok ⟨[RecvEv.data [116, 119], RecvEv.data [111, 10]], [], [],
            [IoRes.ret 1, IoRes.ret 3]⟩)
          ⟨0, false, 0, 1, 0⟩ ⟨[111, 110, 101, 10], 0, [], [], []⟩
        = some (p1, lf1, some c1) ∧
      c1.sent = [[(111 : Byte), 110, 101, 10]].flatten ++ [116, 119, 111, 10] := by
  have hrec : ∀ x ∈ [[(111 : Byte), 110, 101, 10]], IsRecord x := by
    intro x hx
    rw [List.mem_singleton.mp hx]
    exact ⟨[111, 110, 101], rfl, by decide⟩
  have hr : IsRecord [116, 119, 111, 10] := ⟨[116, 119, 111], rfl, by decide⟩
  refine ⟨hrec, hr, ?_⟩
  exact cumulative_echo [[111, 110, 101, 10]] [116, 119, 111, 10] [[116, 119], [111, 10]] 5200
    ⟨0, false, 0, 1, 0⟩ ⟨[111, 110, 101, 10], 0, [], [], []⟩
    ⟨[RecvEv.data [116, 119], RecvEv.data [111, 10]], [], [], [IoRes.ret 1, IoRes.ret 3]⟩
    rfl hrec hr rfl (by decide) rfl rfl rfl ⟨rfl, rfl⟩
    (by intro a ha; simp at ha; rcases ha with rfl | rfl
        · exact ⟨1, rfl, le_refl _⟩
        · exact ⟨3, rfl, by omega⟩)
    (by decide)

/-- C2 as stated fails: on an empty log, a connection that delivers `"a\nb\n"` is sent
`"a\nb\n"` once, not `"a\n"` followed by `"a\nb\n"` as a replay after every record
would give. -/
theorem replay_after_every_record_counterexample :
    (process_incoming 10 (AcceptRes.ok ⟨[RecvEv.data [97, 10, 98, 10]], [], [], []⟩)
        ⟨0, false, 0, 1, 0⟩ ⟨[], 0, [], [], []⟩).map (fun res => res.2.2.map Conn.sent)
      = some (some [97, 10, 98, 10]) ∧
    spec_replies [] [[97, 10], [98, 10]] = [97, 10, 97, 10, 98, 10] ∧
    (process_incoming 10 (AcceptRes.ok ⟨[RecvEv.data [97, 10, 98, 10]], [], [], []⟩)
        ⟨0, false, 0, 1, 0⟩ ⟨[], 0, [], [], []⟩).map (fun res => res.2.2.map Conn.sent)
      ≠ some (some (spec_replies [] [[97, 10], [98, 10]])) := by
  decide!

/-- C2, amended.  A connection whose received bytes contain `k ≥ 1` complete records,
that is, the `k` records followed by a (possibly empty) tail without a newline,
delivered in non-empty chunks of at most `BUF_MAX_LEN` bytes and then end-of-stream,
under ideal writes and reads and accepting sends, is sent the log once, after the
last byte has been received: the bytes sent are the log as it stands after appending
everything received, all `k` records and the tail. -/
theorem replay_once_per_connection (records chunks : List (List Byte)) (tail : List Byte)
    (fuel : Nat) (p : Proc) (lf : LogFile) (c : Conn)
    (_hk : 1 ≤ records.length) (_hrec : ∀ x ∈ records, IsRecord x) (_htail : NL ∉ tail)
    (hsplit : chunks.flatten = records.flatten ++ tail)
    (hch : ∀ ch ∈ chunks, ch ≠ [] ∧ ch.length ≤ BUF_MAX_LEN)
    (hin : c.inbound = chunks.map RecvEv.data) (hsent : c.sent = [])
    (hw : lf.writes = []) (hread : ReadsIdeal lf) (hs : SendsAccept c.sends)
    (hfuel : lf.log.length + (records.flatten ++ tail).length + BUF_MAX_LEN + 2 ≤ fuel) :
    ∃ p1 lf1 c1, process_incoming fuel (AcceptRes.ok c) p lf = some (p1, lf1, some c1) ∧
      lf1.log = lf.log ++ (records.flatten ++ tail) ∧ c1.sent = lf1.log := by
  obtain ⟨lf1, c1, _, h1, h2, h3, _, _⟩ :=
    process_incoming_ideal fuel c p lf chunks hin hch hw hread hs (by rw [hsplit]; exact hfuel)
  exact ⟨_, lf1, c1, h1, by rw [h2, hsplit], by rw [h3, hsent, h2]; simp⟩

/-- C2 amended, at the log `"x\n"` and the bytes `"a\nb\nc"` (the records `"a\n"`, `"b\n"`
and the tail `"c"`) received as the chunks `"a\nb"` and `"\nc"`: the client is sent
`"x\na\nb\nc"` once. -/
theorem replay_once_per_connection_witness :
    (∀ x ∈ [[(97 : Byte), 10], [98, 10]], IsRecord x) ∧ NL ∉ [(99 : Byte)] ∧
    ∃ p1 lf1 c1,
      process_incoming 5200
          (AcceptRes.ok ⟨[RecvEv.data [97, 10, 98], RecvEv.data [10, 99]], [], [], []⟩)
          ⟨0, false, 0, 1, 0⟩ ⟨[120, 10], 0, [], [], []⟩
        = some (p1, lf1, some c1) ∧
      lf1.log = [120, 10] ++ ([[(97 : Byte), 10], [98, 10]].flatten ++ [99]) ∧
      c1.sent = lf1.log := by
  have hrec : ∀ x ∈ [[(97 : Byte), 10], [98, 10]], IsRecord x := by
    intro x hx
    simp at hx
    rcases hx with rfl | rfl
    · exact ⟨[97], rfl, by decide⟩
    · exact ⟨[98], rfl, by decide⟩
  have htail : NL ∉ [(99 : Byte)] := by decide
  refine ⟨hrec, htail, ?_⟩
  exact replay_once_per_connection [[97, 10], [98, 10]] [[97, 10, 98], [10, 99]] [99] 5200
    ⟨0, false, 0, 1, 0⟩ ⟨[120, 10], 0, [], [], []⟩
    ⟨[RecvEv.data [97, 10, 98], RecvEv.data [10, 99]], [], [], []⟩
    (by decide) hrec htail rfl (by decide) rfl rfl rfl ⟨rfl, rfl⟩
    (by intro a ha; simp at ha) (by decide)

/-- C3 (stream to end-of-file).  For a log file of any length, when the seek succeeds,
each read returns `min(BUF_MAX_LEN, bytes remaining)` and each send accepts between 1
and the requested number of bytes, the stream-back loop of `process_incoming`
ends (enough fuel gives a result), the final `off` is the length of the file, the
bytes sent are exactly the file from byte 0 to its end, and no `send` call asks for
more than `BUF_MAX_LEN` bytes. -/
theorem stream_to_end_of_file (k fuel : Nat) (lf : LogFile) (c : Conn)
    (hread : ReadsIdeal lf) (hs : SendsAccept c.sends)
    (hk : BUF_MAX_LEN + 1 ≤ k) (hfuel : lf.log.length + 1 ≤ fuel) :
    ∃ lf1 c1 new, stream_loop k fuel 0 lf c = some (lf.log.length, lf1, c1) ∧
      lf1.log = lf.log ∧ c1.sent = c.sent ++ lf.log ∧
      c1.send_reqs = c.send_reqs ++ new ∧ ∀ q ∈ new, 1 ≤ q ∧ q ≤ BUF_MAX_LEN := by
  obtain ⟨lf1, c1, new, h1, h2, _, h4, _, h6, h7⟩ :=
    stream_loop_ideal k hk fuel 0 lf c hread hs (Nat.zero_le _) (by omega)
  exact ⟨lf1, c1, new, h1, h2, by simpa using h4, h6, h7⟩

/-- C3, at a log of 20001 bytes (20000 bytes and a newline) and sends that first accept
1 byte, then 4000: all 20001 bytes are sent. -/
theorem stream_to_end_of_file_witness :
    ∃ lf1 c1 new,
      stream_loop 5121 20002 0 ⟨List.replicate 20000 120 ++ [10], 0, [], [], []⟩
          ⟨[], [], [], [IoRes.ret 1, IoRes.ret 4000]⟩
        = some ((List.replicate 20000 (120 : Byte) ++ [10]).length, lf1, c1) ∧
      lf1.log = List.replicate 20000 120 ++ [10] ∧
      c1.sent = [] ++ (List.replicate 20000 120 ++ [10]) ∧
      c1.send_reqs = [] ++ new ∧ ∀ q ∈ new, 1 ≤ q ∧ q ≤ BUF_MAX_LEN :=
  stream_to_end_of_file 5121 20002 ⟨List.replicate 20000 120 ++ [10], 0, [], [], []⟩
    ⟨[], [], [], [IoRes.ret 1, IoRes.ret 4000]⟩ ⟨rfl, rfl⟩
    (by intro a ha; simp at ha; rcases ha with rfl | rfl
        · exact ⟨1, rfl, le_refl _⟩
        · exact ⟨4000, rfl, by omega⟩)
    (by decide)
    (by simp only [List.length_append, List.length_replicate, List.length_singleton]; omega)

/-- C4 as stated fails: when `write` stores 1 of the 3 bytes asked for, `write_output`
returns 1 (neither `-1` nor 3) and the log holds 1 byte. -/
theorem write_output_partial_counterexample :
    write_output [97, 98, 10] 3 ⟨[], 0, [IoRes.ret 1, IoRes.ret 2], [], []⟩
      = (1, ⟨[97], 1, [IoRes.ret 2], [], []⟩) ∧
    ¬ ((write_output [97, 98, 10] 3 ⟨[], 0, [IoRes.ret 1, IoRes.ret 2], [], []⟩).1 = -1 ∨
       ((write_output [97, 98, 10] 3 ⟨[], 0, [IoRes.ret 1, IoRes.ret 2], [], []⟩).1 = 3 ∧
        (write_output [97, 98, 10] 3 ⟨[], 0, [IoRes.ret 1, IoRes.ret 2], [], []⟩).2.log
          = [97, 98, 10])) := by
  decide

/-- C4, amended.  The function `write_output` makes exactly one `write` call and does
not retry: whatever the answers in the script, only the first is used; if it is an
error the function returns `-1` and the log is unchanged; if the call stores `n` of
the `len` bytes the function returns `min n len`, which may be less than `len`, and
the log grows by exactly those leading bytes. -/
theorem write_output_single_write (buf : List Byte) (len : Nat) (lf : LogFile) (a : IoRes)
    (rest : List IoRes) (hlen : len ≤ buf.length) (hw : lf.writes = a :: rest) :
    (write_output buf len lf).2.writes = rest ∧
    (match a with
      | IoRes.err _ =>
          (write_output buf len lf).1 = -1 ∧ (write_output buf len lf).2.log = lf.log
      | IoRes.ret n =>
          (write_output buf len lf).1 = ((min n len : Nat) : Int) ∧
          (write_output buf len lf).2.log = lf.log ++ buf.take (min n len)) := by
  cases a with
  | err e => simp [write_output, sys_write, hw]
  | ret n =>
      have hne : ¬ (((min n len : Nat) : Int) = -1) := by omega
      have ht : List.take n (List.take len buf) = List.take (min n len) buf := by
        rw [List.take_take]
      have hl : (List.take (min n len) buf).length = min n len := by
        rw [List.length_take]; omega
      simp only [write_output, sys_write, hw, ht, hl, if_neg hne]
      exact ⟨trivial, trivial, trivial⟩

/-- C4 amended, at the counterexample: one write of 3 bytes that stores 1. -/
theorem write_output_single_write_witness :
    (3 ≤ [(97 : Byte), 98, 10].length) ∧
    (write_output [97, 98, 10] 3 ⟨[], 0, [IoRes.ret 1, IoRes.ret 2], [], []⟩).2.writes
      = [IoRes.ret 2] ∧
    (write_output [97, 98, 10] 3 ⟨[], 0, [IoRes.ret 1, IoRes.ret 2], [], []⟩).1
      = ((min 1 3 : Nat) : Int) ∧
    (write_output [97, 98, 10] 3 ⟨[], 0, [IoRes.ret 1, IoRes.ret 2], [], []⟩).2.log
      = [] ++ [(97 : Byte), 98, 10].take (min 1 3) :=
  ⟨by decide,
    write_output_single_write [97, 98, 10] 3 ⟨[], 0, [IoRes.ret 1, IoRes.ret 2], [], []⟩
      (IoRes.ret 1) [IoRes.ret 2] (by decide) rfl⟩

/-- C5 as stated fails: a connection that delivers `"x\nabc"` and is then closed leaves
`"x\nabc"` in the log, while discarding the residue would leave `"x\n"`. -/
theorem residue_discarded_counterexample :
    (process_incoming 10 (AcceptRes.ok ⟨[RecvEv.data [120, 10, 97, 98, 99]], [], [], []⟩)
        ⟨0, false, 0, 1, 0⟩ ⟨[], 0, [], [], []⟩).map (fun res => res.2.1.log)
      = some [120, 10, 97, 98, 99] ∧
    [] ++ spec_complete_records [120, 10, 97, 98, 99] = [120, 10] := by
  decide!

/-- C5, amended.  Every byte received on a connection is appended to the log in arrival
order, an unterminated tail included: after the connection (non-empty chunks of at
most `BUF_MAX_LEN` bytes, then end-of-stream, ideal writes and reads, accepting sends)
the log is the log before followed by all received bytes. -/
theorem residue_appended (chunks : List (List Byte)) (fuel : Nat)
    (p : Proc) (lf : LogFile) (c : Conn)
    (hch : ∀ ch ∈ chunks, ch ≠ [] ∧ ch.length ≤ BUF_MAX_LEN)
    (hin : c.inbound = chunks.map RecvEv.data)
    (hw : lf.writes = []) (hread : ReadsIdeal lf) (hs : SendsAccept c.sends)
    (hfuel : lf.log.length + chunks.flatten.length + BUF_MAX_LEN + 2 ≤ fuel) :
    ∃ p1 lf1 c1, process_incoming fuel (AcceptRes.ok c) p lf = some (p1, lf1, some c1) ∧
      lf1.log = lf.log ++ chunks.flatten := by
  obtain ⟨lf1, c1, _, h1, h2, _, _, _⟩ :=
    process_incoming_ideal fuel c p lf chunks hin hch hw hread hs hfuel
  exact ⟨_, lf1, c1, h1, h2⟩

/-- C5 amended, at the log `"x\n"` and the chunks `"ab"`, `"c"` with no newline: the log
afterwards is `"x\nabc"`. -/
theorem residue_appended_witness :
    ∃ p1 lf1 c1,
      process_incoming 5200 (AcceptRes.ok ⟨[RecvEv.data [97, 98], RecvEv.data [99]], [], [], []⟩)
          ⟨0, false, 0, 1, 0⟩ ⟨[120, 10], 0, [], [], []⟩
        = some (p1, lf1, some c1) ∧
      lf1.log = [120, 10] ++ [[(97 : Byte), 98], [99]].flatten :=
  residue_appended [[97, 98], [99]] 5200 ⟨0, false, 0, 1, 0⟩ ⟨[120, 10], 0, [], [], []⟩
    ⟨[RecvEv.data [97, 98], RecvEv.data [99]], [], [], []⟩
    (by decide) rfl rfl ⟨rfl, rfl⟩ (by intro a ha; simp at ha) (by decide)

/-- C6, the code at the failing input: a foreground run in which `getaddrinfo`,
`socket` and `bind` succeed and `listen` returns `-1`.  The function
`handle_connections` returns `-1`, and `main` ends with `exit(0)`.  For contrast, a
run in which `bind` returns `-1` ends with `exit(EXIT_FAILURE)`. -/
theorem main_listen_failure_exits_zero :
    handle_connections 10 ⟨true, true, -1, []⟩ Proc.init ⟨[], 0, [], [], []⟩
      = some (-1, Proc.init, ⟨[], 0, [], [], []⟩) ∧
    main 10 ⟨false, 0, 3, 0, 0, 0, none, ⟨true, true, -1, []⟩, ⟨[], 0, [], [], []⟩⟩
      = some (ProcEnd.exit 0) ∧
    main 10 ⟨false, 0, 3, -1, 0, 0, none, ⟨true, true, 0, []⟩, ⟨[], 0, [], [], []⟩⟩
      = some (ProcEnd.exit EXIT_FAILURE) := by
  decide

/-- C7 (accept-loop exit rule).  In every pass of the accept loop, from a state of the
globals in which the socket is shut down only if the flag is set, and with a
listening socket that does not answer `EINVAL` by itself (after `listen` has
succeeded `accept` gives `EINVAL` only once `sig_handler` has shut the socket down):
if the flag is set the loop exits with 0 without calling `accept` (the state is
returned unchanged); otherwise, when the log file opens, if `accept` fails with
`EINVAL` the loop exits with 0, and if `accept` fails with any other error `e` the
loop goes on to its next pass, which like every pass starts with the test of the
flag (and finds it clear unless a signal came in after `accept` had returned). -/
theorem accept_loop_exit_rule (fuel : Nat) (it : IterEnv) (rest : List IterEnv) (p : Proc)
    (lf : LogFile) (e : Nat) (hinv : ShutImpliesCaught p)
    (henv : it.accept ≠ AcceptRes.err EINVAL) :
    (p.sig_caught ≠ 0 → accept_loop fuel (it :: rest) p lf = some (0, p, lf)) ∧
    (p.sig_caught = 0 → it.open_ok = true →
      sys_accept it.accept (before_accept it p) = AcceptRes.err EINVAL →
      accept_loop fuel (it :: rest) p lf
        = some (0, { p with sig_caught := 1, sock_shut_rd := true, accepts := p.accepts + 1,
                            log_fds := p.log_fds + 1 }, { lf with pos := 0 })) ∧
    (p.sig_caught = 0 → it.open_ok = true → e ≠ EINVAL →
      sys_accept it.accept (before_accept it p) = AcceptRes.err e →
      accept_loop fuel (it :: rest) p lf
        = accept_loop fuel rest
            (if it.sig_late then
              sig_handler { p with accepts := p.accepts + 1, log_fds := p.log_fds + 1 }
             else { p with accepts := p.accepts + 1, log_fds := p.log_fds + 1 })
            { lf with pos := 0 }) := by
  refine ⟨?_, ?_, ?_⟩
  · intro h
    simp [accept_loop, h]
  · intro h hopen hacc
    have hshut : p.sock_shut_rd = false := by
      cases hp : p.sock_shut_rd with
      | false => rfl
      | true => have := hinv hp; omega
    cases hsig : it.sig with
    | false =>
        exfalso
        apply henv
        simpa [sys_accept, before_accept, hsig, hshut] using hacc
    | true =>
        cases it.sig_late <;> cases rest <;>
          simp [accept_loop, loop_body, process_incoming, accept_connection, sys_accept,
            before_accept, sig_handler, h, hsig, hopen]
  · intro h hopen hne hacc
    have hshut : p.sock_shut_rd = false := by
      cases hp : p.sock_shut_rd with
      | false => rfl
      | true => have := hinv hp; omega
    cases hsig : it.sig with
    | true =>
        exfalso
        apply hne
        have : AcceptRes.err EINVAL = AcceptRes.err e := by
          simpa [sys_accept, before_accept, hsig, sig_handler] using hacc
        exact (AcceptRes.err.inj this).symm
    | false =>
        have ha : it.accept = AcceptRes.err e := by
          simpa [sys_accept, before_accept, hsig, hshut] using hacc
        cases hl : it.sig_late <;>
          simp [accept_loop, loop_body, process_incoming, accept_connection, sys_accept,
            before_accept, sig_handler, h, hsig, hopen, ha, hshut, hl]

/-- C7, at the initial globals: a pass in which a signal is handled while a connection
is waiting (so `accept` fails with `EINVAL`) ends the loop; a pass whose `accept`
fails with `ECONNABORTED` goes on to the next pass. -/
theorem accept_loop_exit_rule_witness :
    ShutImpliesCaught Proc.init ∧
    AcceptRes.ok ⟨[RecvEv.data [120, 10]], [], [], []⟩ ≠ AcceptRes.err EINVAL ∧
    accept_loop 10 [⟨true, true, false, AcceptRes.ok ⟨[RecvEv.data [120, 10]], [], [], []⟩⟩]
        Proc.init ⟨[], 0, [], [], []⟩
      = some (0, ⟨1, true, 1, 1, 0⟩, ⟨[], 0, [], [], []⟩) ∧
    accept_loop 10 [⟨true, false, false, AcceptRes.err ECONNABORTED⟩] Proc.init
        ⟨[], 0, [], [], []⟩
      = accept_loop 10 [] ⟨0, false, 1, 1, 0⟩ ⟨[], 0, [], [], []⟩ :=
  ⟨fun h => (by cases h), by decide,
   (accept_loop_exit_rule 10
      ⟨true, true, false, AcceptRes.ok ⟨[RecvEv.data [120, 10]], [], [], []⟩⟩ [] Proc.init
      ⟨[], 0, [], [], []⟩ ECONNABORTED (fun h => (by cases h)) (by decide)).2.1 rfl rfl rfl,
   (accept_loop_exit_rule 10 ⟨true, false, false, AcceptRes.err ECONNABORTED⟩ [] Proc.init
      ⟨[], 0, [], [], []⟩ ECONNABORTED (fun h => (by cases h)) (by decide)).2.2 rfl rfl
      (by decide) rfl⟩

/-- C8 (the shutdown signal is idempotent and the flag is monotone).  For every state
`q`, running `sig_handler` twice gives the same flag and the same listening-socket
state as running it once (indeed the same state).  And from a state `p` in which
`sig_caught` is 1, each operation of the program that acts on the globals
(`sig_handler`, `accept_connection`, `process_incoming`, a pass through the loop body,
the accept loop, `handle_connections`) leaves `sig_caught` at 1. -/
theorem sig_handler_idempotent_flag_monotone (p : Proc) (fuel : Nat) (a : AcceptRes)
    (it : IterEnv) (its : List IterEnv) (env : HcEnv) (lf : LogFile) (h : p.sig_caught = 1) :
    (∀ q : Proc,
      (sig_handler (sig_handler q)).sig_caught = (sig_handler q).sig_caught ∧
      (sig_handler (sig_handler q)).sock_shut_rd = (sig_handler q).sock_shut_rd ∧
      sig_handler (sig_handler q) = sig_handler q) ∧
    (sig_handler p).sig_caught = 1 ∧
    (accept_connection a p).2.1.sig_caught = 1 ∧
    (∀ r, process_incoming fuel a p lf = some r → r.1.sig_caught = 1) ∧
    (∀ q lf1 c, loop_body fuel it p lf = some (IterOutcome.next q lf1 c) → q.sig_caught = 1) ∧
    (∀ code q lf1,
      loop_body fuel it p lf = some (IterOutcome.returned code q lf1) → q.sig_caught = 1) ∧
    (∀ r, accept_loop fuel its p lf = some r → r.2.1.sig_caught = 1) ∧
    (∀ r, handle_connections fuel env p lf = some r → r.2.1.sig_caught = 1) := by
  refine ⟨fun q => ⟨rfl, rfl, rfl⟩, rfl, ?_, ?_, ?_, ?_, ?_, ?_⟩
  · cases a <;> simpa [accept_connection] using h
  · intro r hr
    rw [process_incoming_sig_caught fuel a p lf r hr]; exact h
  · intro q lf1 c hb
    rw [(loop_body_sig_caught fuel it p lf _ hb).2 q lf1 c rfl, h]; simp
  · intro code q lf1 hb
    rw [(loop_body_sig_caught fuel it p lf _ hb).1 code q lf1 rfl, h]
  · intro r hr
    exact accept_loop_sig_caught fuel its p lf r h hr
  · intro r hr
    unfold handle_connections at hr
    split at hr
    · simp only [Option.some.injEq] at hr; rw [← hr]; exact h
    · split at hr
      · simp only [Option.some.injEq] at hr; rw [← hr]; exact h
      · exact accept_loop_sig_caught fuel env.iters p lf r h hr

/-- C8, at the state reached by one signal from the initial globals, with a connection
that delivers `"x\n"`: the flag is 1 before and after `process_incoming`. -/
theorem sig_handler_idempotent_flag_monotone_witness :
    (sig_handler Proc.init).sig_caught = 1 ∧
    (sig_handler (sig_handler Proc.init)).sig_caught = 1 ∧
    (∀ r, process_incoming 10 (AcceptRes.ok ⟨[RecvEv.data [120, 10]], [], [], []⟩)
        (sig_handler Proc.init) ⟨[], 0, [], [], []⟩ = some r → r.1.sig_caught = 1) :=
  ⟨rfl,
   (sig_handler_idempotent_flag_monotone (sig_handler Proc.init) 10
      (AcceptRes.ok ⟨[RecvEv.data [120, 10]], [], [], []⟩)
      ⟨true, false, false, AcceptRes.err ECONNABORTED⟩
      [] ⟨true, true, 0, []⟩ ⟨[], 0, [], [], []⟩ rfl).2.1,
   (sig_handler_idempotent_flag_monotone (sig_handler Proc.init) 10
      (AcceptRes.ok ⟨[RecvEv.data [120, 10]], [], [], []⟩)
      ⟨true, false, false, AcceptRes.err ECONNABORTED⟩
      [] ⟨true, true, 0, []⟩ ⟨[], 0, [], [], []⟩ rfl).2.2.2.1⟩

/-- C9, the code at the failing input: a file of 6000 bytes read from offset 0, where
the first `read` is short and returns 8 bytes and the second returns 5120.  The loop
test `read_len <= sizeof buf` lets the second `read` happen and `read_output` returns
5128, which is more than `BUF_MAX_LEN`; the buffer still holds 5120 bytes. -/
theorem read_output_exceeds_buffer :
    (read_output 10 fresh_buf 0
        ⟨List.replicate 6000 7, 0, [], [], [IoRes.ret 8, IoRes.ret 5120]⟩).map (fun r => r.1)
      = some 5128 ∧
    (read_output 10 fresh_buf 0
        ⟨List.replicate 6000 7, 0, [], [], [IoRes.ret 8, IoRes.ret 5120]⟩).map
          (fun r => r.2.1.length)
      = some 5120 ∧
    ¬ ((5128 : Int) ≤ (BUF_MAX_LEN : Int)) := by
  decide!

/-- C10, the code at the failing input: a pass of the accept loop in which the log file
opens and `accept` fails with `ECONNABORTED`, no signal.  The early return of
`process_incoming` skips `close(output_fd)`: the next pass starts with one log
descriptor still open, and a second such pass leaves two.  A pass whose `accept`
succeeds ends with none open. -/
theorem log_fd_leak_on_accept_failure :
    loop_body 10 ⟨true, false, false, AcceptRes.err ECONNABORTED⟩ Proc.init ⟨[], 0, [], [], []⟩
      = some (IterOutcome.next ⟨0, false, 1, 1, 0⟩ ⟨[], 0, [], [], []⟩ none) ∧
    loop_body 10 ⟨true, false, false, AcceptRes.err ECONNABORTED⟩ ⟨0, false, 1, 1, 0⟩
        ⟨[], 0, [], [], []⟩
      = some (IterOutcome.next ⟨0, false, 2, 2, 0⟩ ⟨[], 0, [], [], []⟩ none) ∧
    loop_body 10 ⟨true, false, false, AcceptRes.ok ⟨[RecvEv.data [120, 10]], [], [], []⟩⟩
        Proc.init
        ⟨[], 0, [], [], []⟩
      = some (IterOutcome.next ⟨0, false, 1, 0, 0⟩ ⟨[120, 10], 2, [], [], []⟩
          (some ⟨[], [120, 10], [2], []⟩)) := by
  decide!

end Aesdsocket
